import Mathlib

/-!
# mkdef: the protocol definition generation driver

A shallow embedding of `src/mkdef/mkdef.cc`.  The driver registers five
plugins on a `ProtocolDefinition`, parses its options, loads the protocol
definition and writes three generated files.

A run of `main` is modelled by the list of observable events it performs,
in program order, together with its exit status.  Everything the driver
calls but does not define is taken from the environment of the run:

* `getopt`: the run receives the sequence of results `getopt` returns before
  it returns -1 (the option character and `optarg`);
* `ProtocolDefinition::Load` and `fopen`: their outcome is given by `Env`;
* the passes of `ProtocolCodeGenerator`: the text each pass writes to the
  stream it is handed is given by `Env`.

`strtol` and the conversion to `int` are modelled for an LP64 target
(64-bit `long`, 32-bit `int`).  A C string is a `String`; the terminating
NUL is the end of the list of characters.

An output file is identified with the stream `main` opens on it: the content
of an artifact is the text written to its stream, in order (`written`), and a
file counts as created or truncated once `fopen` has succeeded on its path
(`opened`).
-/

namespace Mkdef

/-! ## libc -/

def EXIT_SUCCESS : Int := 0

def EXIT_FAILURE : Int := 1

def LONG_MAX : Int := 2 ^ 63 - 1

def LONG_MIN : Int := -(2 ^ 63)

def INT_MAX : Int := 2 ^ 31 - 1

def INT_MIN : Int := -(2 ^ 31)

/-- The `isspace` of the C locale: space, \t, \n, \v, \f, \r. -/
def isspace (c : Char) : Bool :=
  c.toNat = 32 || (9 ≤ c.toNat && c.toNat ≤ 13)

/-- The `isdigit` of C: the characters 0 to 9. -/
def isdigit (c : Char) : Bool :=
  48 ≤ c.toNat && c.toNat ≤ 57

/-- The value of a decimal digit character. -/
def digitVal (c : Char) : Nat := c.toNat - 48

/-- The number a run of decimal digits denotes, most significant digit first. -/
def digitsVal (ds : List Char) : Nat :=
  ds.foldl (fun acc c => 10 * acc + digitVal c) 0

/-- The sign prefix `strtol` accepts: whether the number is negated, and the
text after the sign. -/
def stripSign : List Char → Bool × List Char
  | '-' :: rest => (true, rest)
  | '+' :: rest => (false, rest)
  | cs => (false, cs)

/-- The `strtol(nptr, &endptr, 10)` of C with a 64-bit `long`: the value
returned and the text `endptr` points at.  Leading white space is skipped, an
optional sign is read, then the longest run of decimal digits.  With no digit
there is no conversion: the value is 0 and `endptr` is `nptr`.  A value
outside the range of `long` is clamped to `LONG_MAX` or `LONG_MIN`. -/
def strtol (nptr : List Char) : Int × List Char :=
  let afterSpace := nptr.dropWhile isspace
  let (neg, afterSign) := stripSign afterSpace
  let digits := afterSign.takeWhile isdigit
  if digits.isEmpty then (0, nptr)
  else
    let magnitude : Int := (digitsVal digits : Nat)
    let value : Int := if neg then -magnitude else magnitude
    let clamped : Int :=
      if value > LONG_MAX then LONG_MAX else if value < LONG_MIN then LONG_MIN else value
    (clamped, afterSign.dropWhile isdigit)

/-- The conversion `(int)` of a `long`: the value modulo 2^32, as a signed
32-bit integer. -/
def toInt (v : Int) : Int :=
  (v + 2 ^ 31) % 2 ^ 32 - 2 ^ 31

/-! ## The plugins the driver defines -/

namespace DummyTransformation

end DummyTransformation

namespace DummyAnnotation

/-- `DummyAnnotation::Lookup`: the text "?" for every value. -/
def Lookup (_v : Nat) : String := "?"

end DummyAnnotation

/-! ## Events of a run -/

/-- The three output streams of `main`, named after its variables. -/
inductive Stream where
  | pCFile
  | pHFile
  | pPythonCFile
  deriving DecidableEq, Repr

/-- The passes of `ProtocolCodeGenerator` that `main` calls. -/
inductive Pass where
  | GenerateEnumerations
  | GenerateTypes
  | GeneratePackets
  | GenerateParserClass
  | GenerateFunctions
  | GenerateParser
  | GeneratePythonBindings
  deriving DecidableEq, Repr

/-- Who wrote to a stream: the driver itself (`write_header`, `fprintf` in
`main`) or a pass of the generator that was handed the stream. -/
inductive Writer where
  | driver
  | pass (p : Pass)
  deriving DecidableEq, Repr

/-- What a run of `main` does, as seen from outside. -/
inductive Event where
  | RegisterTransformation (name : String)
  | RegisterAnnotation (name : String)
  | stderr (text : String)
  | errx (eval : Int) (msg : String)
  | err (eval : Int) (msg : String)
  | Load (path : String) (version : Int) (ok : Bool)
  | fopen (f : Stream) (path : String) (ok : Bool)
  | write (f : Stream) (w : Writer) (text : String)
  | fclose (f : Stream)
  deriving DecidableEq, Repr

/-- A finished run: its events in program order and the exit status. -/
structure Run where
  trace : List Event
  status : Int
  deriving DecidableEq, Repr

/-! ## The environment of a run -/

/-- What each pass of the generator writes to the stream it is handed.
`GenerateParser` also takes the name of the packet member. -/
structure ProtocolCodeGenerator where
  GenerateEnumerations : String
  GenerateTypes : String
  GeneratePackets : String
  GenerateParserClass : String
  GenerateFunctions : String
  GenerateParser : String → String
  GeneratePythonBindings : String

/-- The collaborators of `main`: whether `Load(path, version)` succeeds,
whether `fopen(path, "wt")` returns a stream, and the generator built on the
loaded definition. -/
structure Env where
  Load : String → Int → Bool
  fopen : String → Bool
  oGenerator : ProtocolCodeGenerator

/-- One result of `getopt`: the option character returned and `optarg`
(set for the options declared with a colon in "?hd:i:c:v:p:"). -/
structure GetoptResult where
  opt : Char
  optarg : String
  deriving DecidableEq, Repr

/-! ## The driver -/

/-- The text `write_header` prints. -/
def write_header (f : Stream) : List Event :=
  [Event.write f Writer.driver "/* This file is automatically generated by mkdef - do not edit! */\n"]

/-- The text `usage` prints on stderr. -/
def usage (progname : String) : List Event :=
  [ Event.stderr ("usage: " ++ progname ++ " [-h?] [-v version] -d protocol.xml -c file.cc -p file.cc -i file.h\n"),
    Event.stderr "\n",
    Event.stderr "  -h, -?             this help\n",
    Event.stderr "  -d protocol.xml    use supplied protocol definitions\n",
    Event.stderr "  -v version         protocol version to use (default is latest)\n",
    Event.stderr "  -c file.cc         write c++ code to file.cc\n",
    Event.stderr "  -p file.cc         write python wrappers to file.cc\n",
    Event.stderr "  -i file.h          write header file to file.h\n",
    Event.stderr "\n" ]

/-- The local variables of `main` the option loop assigns; `none` is NULL. -/
structure Vars where
  iVersion : Int
  sCPPFile : Option String
  sPythonCPPFile : Option String
  sHFile : Option String
  sProtocolDefFile : Option String
  deriving DecidableEq, Repr

/-- The variables as `main` initialises them. -/
def Vars.init : Vars :=
  { iVersion := -1, sCPPFile := none, sPythonCPPFile := none, sHFile := none,
    sProtocolDefFile := none }

/-- The `while ((opt = getopt(...)) != -1) switch (opt)` loop of `main` over
the results `getopt` returns: either the variables after the last option, or
the events and exit status of a run that ends inside the loop. -/
def optionLoop (progname : String) : List GetoptResult → Vars → Except (List Event × Int) Vars
  | [], v => Except.ok v
  | r :: rest, v =>
    if r.opt = 'd' then
      optionLoop progname rest { v with sProtocolDefFile := some r.optarg }
    else if r.opt = 'c' then
      optionLoop progname rest { v with sCPPFile := some r.optarg }
    else if r.opt = 'i' then
      optionLoop progname rest { v with sHFile := some r.optarg }
    else if r.opt = 'p' then
      optionLoop progname rest { v with sPythonCPPFile := some r.optarg }
    else if r.opt = 'v' then
      let conv := strtol r.optarg.data
      let v1 := { v with iVersion := toInt conv.1 }
      if conv.2 ≠ [] then
        Except.error
          ([Event.errx 1 ("version \x27" ++ r.optarg ++ "\x27 cannot be parsed")], 1)
      else
        optionLoop progname rest v1
    else
      Except.error (usage progname, EXIT_FAILURE)

/-- The five registrations `main` starts with. -/
def registrations : List Event :=
  [ Event.RegisterTransformation "rompack",
    Event.RegisterAnnotation "sys_name",
    Event.RegisterAnnotation "stat_name",
    Event.RegisterAnnotation "objectid",
    Event.RegisterAnnotation "charid" ]

/-- The header block of `main`, first part: what the driver prints before it
calls the generator. -/
def headerPreamble : List Event :=
  write_header Stream.pHFile ++
  [ Event.write Stream.pHFile Writer.driver "#ifndef __ROMPACKET_H__\n",
    Event.write Stream.pHFile Writer.driver "#define __ROMPACKET_H__\n",
    Event.write Stream.pHFile Writer.driver "#include <stdint.h>\n",
    Event.write Stream.pHFile Writer.driver "#include \"romstructs.h\"\n",
    Event.write Stream.pHFile Writer.driver "\n",
    Event.write Stream.pHFile Writer.driver "class State;\n",
    Event.write Stream.pHFile Writer.driver "\n",
    Event.write Stream.pHFile Writer.driver "namespace ROMPacket \x7b\n",
    Event.write Stream.pHFile Writer.driver "\n",
    Event.write Stream.pHFile Writer.driver "typedef uint8_t u8;\n",
    Event.write Stream.pHFile Writer.driver "typedef uint16_t u16;\n",
    Event.write Stream.pHFile Writer.driver "typedef uint32_t u32;\n",
    Event.write Stream.pHFile Writer.driver "typedef uint32_t unixtime;\n",
    Event.write Stream.pHFile Writer.driver "typedef int8_t s8;\n",
    Event.write Stream.pHFile Writer.driver "typedef int16_t s16;\n",
    Event.write Stream.pHFile Writer.driver "typedef int32_t s32;\n",
    Event.write Stream.pHFile Writer.driver "typedef uint32_t ulength;\n",
    Event.write Stream.pHFile Writer.driver "#define PACKED __attribute__((packed))\n",
    Event.write Stream.pHFile Writer.driver "\n" ]

/-- The header block of `main`, second part: the four passes handed `pHFile`. -/
def headerPasses (g : ProtocolCodeGenerator) : List Event :=
  [ Event.write Stream.pHFile (Writer.pass Pass.GenerateEnumerations) g.GenerateEnumerations,
    Event.write Stream.pHFile (Writer.pass Pass.GenerateTypes) g.GenerateTypes,
    Event.write Stream.pHFile (Writer.pass Pass.GeneratePackets) g.GeneratePackets,
    Event.write Stream.pHFile (Writer.pass Pass.GenerateParserClass) g.GenerateParserClass ]

/-- The header block of `main`, last part: what the driver prints after the
passes. -/
def headerClosing : List Event :=
  [ Event.write Stream.pHFile Writer.driver "\x7d /* namespace ROMPacket */\n",
    Event.write Stream.pHFile Writer.driver "#endif /* __ROMPACKET_H__ */\n" ]

/-- The block of `main` that writes the header file. -/
def headerBlock (g : ProtocolCodeGenerator) : List Event :=
  headerPreamble ++ headerPasses g ++ headerClosing

/-- The source block of `main`, first part: what the driver prints before it
calls the generator; `sHFile` is the path given with -i. -/
def sourcePreamble (sHFile : String) : List Event :=
  write_header Stream.pCFile ++
  [ Event.write Stream.pCFile Writer.driver ("#include \"" ++ sHFile ++ "\"\n"),
    Event.write Stream.pCFile Writer.driver "#include <assert.h>\n",
    Event.write Stream.pCFile Writer.driver "#include <string.h> // for memset()\n",
    Event.write Stream.pCFile Writer.driver "#include <stdio.h>\n",
    Event.write Stream.pCFile Writer.driver "#include \"state.h\"\n",
    Event.write Stream.pCFile Writer.driver "#include \"../lib/rompack.h\"\n",
    Event.write Stream.pCFile Writer.driver "\n",
    Event.write Stream.pCFile Writer.driver "using namespace ROMPacket;\n",
    Event.write Stream.pCFile Writer.driver "typedef ROMPack rompack;\n",
    Event.write Stream.pCFile Writer.driver "\n" ]

/-- The source block of `main`, second part: the two passes handed `pCFile`. -/
def sourcePasses (g : ProtocolCodeGenerator) : List Event :=
  [ Event.write Stream.pCFile (Writer.pass Pass.GenerateFunctions) g.GenerateFunctions,
    Event.write Stream.pCFile (Writer.pass Pass.GenerateParser) (g.GenerateParser "m_Packet") ]

/-- The block of `main` that writes the source file. -/
def sourceBlock (g : ProtocolCodeGenerator) (sHFile : String) : List Event :=
  sourcePreamble sHFile ++ sourcePasses g

/-- The block of `main` that writes the Python file. -/
def pythonBlock (g : ProtocolCodeGenerator) : List Event :=
  [ Event.write Stream.pPythonCFile (Writer.pass Pass.GeneratePythonBindings)
      g.GeneratePythonBindings ]

/-- The part of `main` after the option loop, from the check of the required
arguments to the end. -/
def generate (env : Env) (progname : String) (v : Vars) : Run :=
  match v.sProtocolDefFile, v.sCPPFile, v.sHFile, v.sPythonCPPFile with
  | some sProtocolDefFile, some sCPPFile, some sHFile, some sPythonCPPFile =>
    if !env.Load sProtocolDefFile v.iVersion then
      { trace := [ Event.Load sProtocolDefFile v.iVersion false,
                   Event.errx 1 "can\x27t load protocol definitions" ],
        status := 1 }
    else if !env.fopen sCPPFile then
      { trace := [ Event.Load sProtocolDefFile v.iVersion true,
                   Event.fopen Stream.pCFile sCPPFile false,
                   Event.err 1 ("can\x27t create \x27" ++ sCPPFile ++ "\x27") ],
        status := 1 }
    else if !env.fopen sHFile then
      { trace := [ Event.Load sProtocolDefFile v.iVersion true,
                   Event.fopen Stream.pCFile sCPPFile true,
                   Event.fopen Stream.pHFile sHFile false,
                   Event.err 1 ("can\x27t create \x27" ++ sHFile ++ "\x27") ],
        status := 1 }
    else if !env.fopen sPythonCPPFile then
      { trace := [ Event.Load sProtocolDefFile v.iVersion true,
                   Event.fopen Stream.pCFile sCPPFile true,
                   Event.fopen Stream.pHFile sHFile true,
                   Event.fopen Stream.pPythonCFile sPythonCPPFile false,
                   Event.err 1 ("can\x27t create \x27" ++ sPythonCPPFile ++ "\x27") ],
        status := 1 }
    else
      { trace := [ Event.Load sProtocolDefFile v.iVersion true,
                   Event.fopen Stream.pCFile sCPPFile true,
                   Event.fopen Stream.pHFile sHFile true,
                   Event.fopen Stream.pPythonCFile sPythonCPPFile true ]
                 ++ headerBlock env.oGenerator
                 ++ sourceBlock env.oGenerator sHFile
                 ++ pythonBlock env.oGenerator
                 ++ [ Event.fclose Stream.pHFile, Event.fclose Stream.pCFile,
                      Event.fclose Stream.pPythonCFile ],
        status := EXIT_SUCCESS }
  | _, _, _, _ =>
    { trace := Event.stderr (progname ++ ": missing required arguments\n") :: usage progname,
      status := EXIT_FAILURE }

/-- The `main` of mkdef.  `progname` is `argv[0]` and `opts` the results
`getopt` returns for the argument vector. -/
def main (env : Env) (progname : String) (opts : List GetoptResult) : Run :=
  match optionLoop progname opts Vars.init with
  | Except.error (events, status) => { trace := registrations ++ events, status := status }
  | Except.ok v =>
    let r := generate env progname v
    { trace := registrations ++ r.trace, status := r.status }

/-! ## Observations on a run -/

/-- The argument of the last occurrence of option `c` among the results of
`getopt`, if the option occurs. -/
def lastArg (c : Char) : List GetoptResult → Option String
  | [] => none
  | r :: rest =>
    match lastArg c rest with
    | some a => some a
    | none => if r.opt = c then some r.optarg else none

/-- The texts the driver itself wrote to stream `f`, in the order of the trace. -/
def driverWrites (f : Stream) : List Event → List String
  | [] => []
  | Event.write g Writer.driver text :: rest =>
    if g = f then text :: driverWrites f rest else driverWrites f rest
  | _ :: rest => driverWrites f rest

/-- The output files a trace opened (created or truncated), in order. -/
def opened : List Event → List (Stream × String)
  | [] => []
  | Event.fopen f path true :: rest => (f, path) :: opened rest
  | _ :: rest => opened rest

/-- A registration of a transformation or of an annotation. -/
def Event.isRegistration : Event → Bool
  | Event.RegisterTransformation _ => true
  | Event.RegisterAnnotation _ => true
  | _ => false

/-- A call of `Load`. -/
def Event.isLoad : Event → Bool
  | Event.Load _ _ _ => true
  | _ => false

/-- An action on an output file: a call of `fopen`, a write to an output
stream (by the driver or by a pass of the generator), a call of `fclose`. -/
def Event.isOutputAction : Event → Bool
  | Event.fopen _ _ _ => true
  | Event.write _ _ _ => true
  | Event.fclose _ => true
  | _ => false

/-- The names registered as transformations, in order. -/
def registeredTransformations : List Event → List String
  | [] => []
  | Event.RegisterTransformation name :: rest => name :: registeredTransformations rest
  | _ :: rest => registeredTransformations rest

/-- The names registered as annotations, in order. -/
def registeredAnnotations : List Event → List String
  | [] => []
  | Event.RegisterAnnotation name :: rest => name :: registeredAnnotations rest
  | _ :: rest => registeredAnnotations rest

/-! ## The artifacts as the specification describes them -/

/-- The text of a decimal integer literal: a minus sign when `neg`, then the
digits `ds`. -/
def decimalLiteral (neg : Bool) (ds : List Char) : String :=
  String.mk ((if neg then ['-'] else []) ++ ds)

/-- The integer a decimal literal denotes: the positional value of its digits
(`Nat.ofDigits` takes the least significant digit first), negated after a
minus sign. -/
def literalValue (neg : Bool) (ds : List Char) : Int :=
  if neg then -((Nat.ofDigits 10 (ds.reverse.map digitVal) : Nat) : Int)
  else ((Nat.ofDigits 10 (ds.reverse.map digitVal) : Nat) : Int)

/-- The type and the alias of a line of the form "typedef T A;", if the line
is one. -/
def parseTypedef (line : String) : Option (String × String) :=
  let cs := line.data
  if "typedef ".data.isPrefixOf cs then
    let body := cs.drop 8
    let ty := body.takeWhile (fun ch => ch != ' ')
    let alias_ := ((body.dropWhile (fun ch => ch != ' ')).drop 1).takeWhile (fun ch => ch != ';')
    some (String.mk ty, String.mk alias_)
  else none

/-- The type aliases the driver itself writes to the declarations artifact:
(type, alias), in order. -/
def typedefs (trace : List Event) : List (String × String) :=
  (driverWrites Stream.pHFile trace).filterMap parseTypedef

/-- The exact-width integer types of <stdint.h>: whether the type is signed,
and its width in bytes. -/
def exactWidthType (ty : String) : Option (Bool × Nat) :=
  if ty = "uint8_t" then some (false, 1)
  else if ty = "uint16_t" then some (false, 2)
  else if ty = "uint32_t" then some (false, 4)
  else if ty = "int8_t" then some (true, 1)
  else if ty = "int16_t" then some (true, 2)
  else if ty = "int32_t" then some (true, 4)
  else none

/-- What the name of an alias states, for the names made of "u" or "s" and a
width in bits: whether it is signed, and its width in bytes. -/
def statedByName (name : String) : Option (Bool × Nat) :=
  if name = "u8" then some (false, 1)
  else if name = "u16" then some (false, 2)
  else if name = "u32" then some (false, 4)
  else if name = "s8" then some (true, 1)
  else if name = "s16" then some (true, 2)
  else if name = "s32" then some (true, 4)
  else none

/-- The types whose width depends on the host. -/
def hostNativeTypes : List String := ["int", "long", "size_t", "time_t"]

/-! ## Runs used as examples -/

/-- A generator whose passes write short marked texts. -/
def exampleGenerator : ProtocolCodeGenerator :=
  { GenerateEnumerations := "E;", GenerateTypes := "T;", GeneratePackets := "P;",
    GenerateParserClass := "K;", GenerateFunctions := "F;",
    GenerateParser := (fun member => "D(" ++ member ++ ");"),
    GeneratePythonBindings := "B;" }

/-- An environment in which `Load` and every `fopen` succeed. -/
def goodEnv : Env :=
  { Load := (fun _ _ => true), fopen := (fun _ => true), oGenerator := exampleGenerator }

/-- An environment in which `Load` fails. -/
def loadFailsEnv : Env :=
  { Load := (fun _ _ => false), fopen := (fun _ => true), oGenerator := exampleGenerator }

/-- The results of `getopt` for
`mkdef -d protocol.xml -c out.cc -i out.h -p py.cc`. -/
def fourPaths : List GetoptResult :=
  [ { opt := 'd', optarg := "protocol.xml" }, { opt := 'c', optarg := "out.cc" },
    { opt := 'i', optarg := "out.h" }, { opt := 'p', optarg := "py.cc" } ]

/-- The results of `getopt` for
`mkdef -d protocol.xml -v 7 -c out.cc -i out.h -p py.cc -v -12`. -/
def twoVersions : List GetoptResult :=
  [ { opt := 'd', optarg := "protocol.xml" }, { opt := 'v', optarg := "7" },
    { opt := 'c', optarg := "out.cc" }, { opt := 'i', optarg := "out.h" },
    { opt := 'p', optarg := "py.cc" }, { opt := 'v', optarg := "-12" } ]

/-- The results of `getopt` for
`mkdef -v "" -d protocol.xml -c out.cc -i out.h -p py.cc`. -/
def emptyVersion : List GetoptResult :=
  { opt := 'v', optarg := "" } :: fourPaths

/-- The results of `getopt` for
`mkdef -v 4294967295 -d protocol.xml -c out.cc -i out.h -p py.cc`. -/
def hugeVersion : List GetoptResult :=
  { opt := 'v', optarg := "4294967295" } :: fourPaths

/-- The results of `getopt` for
`mkdef -v 12abc -d protocol.xml -c out.cc -i out.h -p py.cc`. -/
def trailingVersion : List GetoptResult :=
  { opt := 'v', optarg := "12abc" } :: fourPaths

/-! ## Lemmas on the option loop -/

/-- `lastArg` on a list with one more result of `getopt` in front. -/
theorem lastArg_cons (c : Char) (r : GetoptResult) (rest : List GetoptResult) :
    lastArg c (r :: rest) = (lastArg c rest <|> (if r.opt = c then some r.optarg else none)) := by
  simp only [lastArg]
  cases lastArg c rest <;> rfl

/-- One turn of the option loop that does not end the run. -/
theorem optionLoop_cons_ok (progname : String) (r : GetoptResult) (rest : List GetoptResult)
    (v v1 : Vars) (h : optionLoop progname (r :: rest) v = Except.ok v1) :
    ∃ v2 : Vars, optionLoop progname rest v2 = Except.ok v1 ∧
      v2.sProtocolDefFile = (if r.opt = 'd' then some r.optarg else v.sProtocolDefFile) ∧
      v2.sCPPFile = (if r.opt = 'c' then some r.optarg else v.sCPPFile) ∧
      v2.sHFile = (if r.opt = 'i' then some r.optarg else v.sHFile) ∧
      v2.sPythonCPPFile = (if r.opt = 'p' then some r.optarg else v.sPythonCPPFile) ∧
      v2.iVersion = (if r.opt = 'v' then toInt (strtol r.optarg.data).1 else v.iVersion) ∧
      (r.opt = 'v' → (strtol r.optarg.data).2 = []) := by
  unfold optionLoop at h
  by_cases hd : r.opt = 'd'
  · rw [if_pos hd] at h
    exact ⟨_, h, by simp [hd]⟩
  rw [if_neg hd] at h
  by_cases hc : r.opt = 'c'
  · rw [if_pos hc] at h
    exact ⟨_, h, by simp [hc]⟩
  rw [if_neg hc] at h
  by_cases hi : r.opt = 'i'
  · rw [if_pos hi] at h
    exact ⟨_, h, by simp [hi]⟩
  rw [if_neg hi] at h
  by_cases hp : r.opt = 'p'
  · rw [if_pos hp] at h
    exact ⟨_, h, by simp [hp]⟩
  rw [if_neg hp] at h
  by_cases hv : r.opt = 'v'
  · rw [if_pos hv] at h
    by_cases hptr : (strtol r.optarg.data).2 = []
    · simp only [hptr, ne_eq, not_true_eq_false, if_false] at h
      exact ⟨_, h, by simp [hv, hptr]⟩
    · simp [hptr] at h
  · rw [if_neg hv] at h
    simp at h

/-- The variables after an option loop that ran to its end: each path is the
argument of the last occurrence of its option, the version is read from the
argument of the last -v. -/
theorem optionLoop_ok (progname : String) (opts : List GetoptResult) :
    ∀ v v1 : Vars, optionLoop progname opts v = Except.ok v1 →
      v1.sProtocolDefFile = (lastArg 'd' opts <|> v.sProtocolDefFile) ∧
      v1.sCPPFile = (lastArg 'c' opts <|> v.sCPPFile) ∧
      v1.sHFile = (lastArg 'i' opts <|> v.sHFile) ∧
      v1.sPythonCPPFile = (lastArg 'p' opts <|> v.sPythonCPPFile) ∧
      v1.iVersion =
        ((lastArg 'v' opts).map (fun a => toInt (strtol a.data).1)).getD v.iVersion := by
  induction opts with
  | nil =>
    intro v v1 h
    simp only [optionLoop, Except.ok.injEq] at h
    subst h
    simp [lastArg]
  | cons r rest ih =>
    intro v v1 h
    obtain ⟨v2, h2, e1, e2, e3, e4, e5, -⟩ := optionLoop_cons_ok progname r rest v v1 h
    obtain ⟨i1, i2, i3, i4, i5⟩ := ih v2 v1 h2
    simp only [lastArg_cons]
    refine ⟨?_, ?_, ?_, ?_, ?_⟩
    · rw [i1, e1]; cases lastArg 'd' rest <;> by_cases hc : r.opt = 'd' <;> simp [hc]
    · rw [i2, e2]; cases lastArg 'c' rest <;> by_cases hc : r.opt = 'c' <;> simp [hc]
    · rw [i3, e3]; cases lastArg 'i' rest <;> by_cases hc : r.opt = 'i' <;> simp [hc]
    · rw [i4, e4]; cases lastArg 'p' rest <;> by_cases hc : r.opt = 'p' <;> simp [hc]
    · rw [i5, e5]; cases lastArg 'v' rest <;> by_cases hc : r.opt = 'v' <;> simp [hc]

/-- Every -v argument of a run that leaves the option loop was read by
`strtol` to its end. -/
theorem optionLoop_ok_version_args (progname : String) (opts : List GetoptResult) :
    ∀ v v1 : Vars, optionLoop progname opts v = Except.ok v1 →
      ∀ r ∈ opts, r.opt = 'v' → (strtol r.optarg.data).2 = [] := by
  induction opts with
  | nil => intro v v1 _ r hr; simp at hr
  | cons r rest ih =>
    intro v v1 h r1 hr1 hv
    obtain ⟨v2, h2, -, -, -, -, -, e6⟩ := optionLoop_cons_ok progname r rest v v1 h
    rcases List.mem_cons.mp hr1 with rfl | hmem
    · exact e6 hv
    · exact ih v2 v1 h2 r1 hmem hv

/-- A run that ends inside the option loop ends with status 1 and has only
written to stderr. -/
theorem optionLoop_error (progname : String) (opts : List GetoptResult) :
    ∀ (v : Vars) (events : List Event) (status : Int),
      optionLoop progname opts v = Except.error (events, status) →
      status = 1 ∧ ∀ e ∈ events, e.isRegistration = false ∧ e.isLoad = false ∧
        e.isOutputAction = false := by
  induction opts with
  | nil =>
    intro v events status h
    simp [optionLoop] at h
  | cons r rest ih =>
    intro v events status h
    unfold optionLoop at h
    split_ifs at h with hd hc hi hp hv
    · exact ih _ _ _ h
    · exact ih _ _ _ h
    · exact ih _ _ _ h
    · exact ih _ _ _ h
    · by_cases hptr : (strtol r.optarg.data).2 = []
      · simp only [hptr, ne_eq, not_true_eq_false, if_false] at h
        exact ih _ _ _ h
      · simp only [hptr, ne_eq, not_false_eq_true, if_true, Except.error.injEq,
          Prod.mk.injEq] at h
        obtain ⟨h1, h2⟩ := h
        subst h1 h2
        simp [Event.isRegistration, Event.isLoad, Event.isOutputAction]
    · simp only [Except.error.injEq, Prod.mk.injEq] at h
      obtain ⟨h1, h2⟩ := h
      subst h1 h2
      simp [usage, EXIT_FAILURE, Event.isRegistration, Event.isLoad, Event.isOutputAction]

/-! ## The shape of a run -/

theorem main_of_error (env : Env) (progname : String) (opts : List GetoptResult)
    (events : List Event) (status : Int)
    (h : optionLoop progname opts Vars.init = Except.error (events, status)) :
    main env progname opts = { trace := registrations ++ events, status := status } := by
  unfold main
  rw [h]

theorem main_of_ok (env : Env) (progname : String) (opts : List GetoptResult) (v : Vars)
    (h : optionLoop progname opts Vars.init = Except.ok v) :
    main env progname opts =
      { trace := registrations ++ (generate env progname v).trace,
        status := (generate env progname v).status } := by
  unfold main
  rw [h]

theorem generate_missing (env : Env) (progname : String) (v : Vars)
    (h : v.sProtocolDefFile = none ∨ v.sCPPFile = none ∨ v.sHFile = none ∨
      v.sPythonCPPFile = none) :
    generate env progname v =
      { trace := Event.stderr (progname ++ ": missing required arguments\n") :: usage progname,
        status := EXIT_FAILURE } := by
  unfold generate
  split
  · rename_i h1 h2 h3 h4
    simp [h1, h2, h3, h4] at h
  · rfl

/-- The shape of every run of `main`. -/
theorem main_cases (env : Env) (progname : String) (opts : List GetoptResult) :
    ((main env progname opts).status = 1 ∧
      ∃ events, (main env progname opts).trace = registrations ++ events ∧
        ∀ e ∈ events, e.isRegistration = false ∧ e.isLoad = false ∧ e.isOutputAction = false) ∨
    ∃ d c i p v, lastArg 'd' opts = some d ∧ lastArg 'c' opts = some c ∧
      lastArg 'i' opts = some i ∧ lastArg 'p' opts = some p ∧
      v = ((lastArg 'v' opts).map (fun a => toInt (strtol a.data).1)).getD (-1) ∧
      (∀ r ∈ opts, r.opt = 'v' → (strtol r.optarg.data).2 = []) ∧
      ((env.Load d v = false ∧ (main env progname opts).status = 1 ∧
          (main env progname opts).trace = registrations ++
            [Event.Load d v false, Event.errx 1 "can\x27t load protocol definitions"]) ∨
       (env.Load d v = true ∧ env.fopen c = false ∧ (main env progname opts).status = 1 ∧
          (main env progname opts).trace = registrations ++
            [Event.Load d v true, Event.fopen Stream.pCFile c false,
             Event.err 1 ("can\x27t create \x27" ++ c ++ "\x27")]) ∨
       (env.Load d v = true ∧ env.fopen c = true ∧ env.fopen i = false ∧
          (main env progname opts).status = 1 ∧
          (main env progname opts).trace = registrations ++
            [Event.Load d v true, Event.fopen Stream.pCFile c true,
             Event.fopen Stream.pHFile i false,
             Event.err 1 ("can\x27t create \x27" ++ i ++ "\x27")]) ∨
       (env.Load d v = true ∧ env.fopen c = true ∧ env.fopen i = true ∧ env.fopen p = false ∧
          (main env progname opts).status = 1 ∧
          (main env progname opts).trace = registrations ++
            [Event.Load d v true, Event.fopen Stream.pCFile c true,
             Event.fopen Stream.pHFile i true, Event.fopen Stream.pPythonCFile p false,
             Event.err 1 ("can\x27t create \x27" ++ p ++ "\x27")]) ∨
       (env.Load d v = true ∧ env.fopen c = true ∧ env.fopen i = true ∧ env.fopen p = true ∧
          (main env progname opts).status = 0 ∧
          (main env progname opts).trace = registrations ++
            ([Event.Load d v true, Event.fopen Stream.pCFile c true,
              Event.fopen Stream.pHFile i true, Event.fopen Stream.pPythonCFile p true]
             ++ headerBlock env.oGenerator ++ sourceBlock env.oGenerator i
             ++ pythonBlock env.oGenerator
             ++ [Event.fclose Stream.pHFile, Event.fclose Stream.pCFile,
                 Event.fclose Stream.pPythonCFile]))) := by
  cases hloop : optionLoop progname opts Vars.init with
  | error x =>
    obtain ⟨events, status⟩ := x
    obtain ⟨hst, hev⟩ := optionLoop_error progname opts _ _ _ hloop
    rw [main_of_error env progname opts events status hloop]
    exact Or.inl ⟨hst, events, rfl, hev⟩
  | ok vars =>
    obtain ⟨e1, e2, e3, e4, e5⟩ := optionLoop_ok progname opts _ _ hloop
    have e6 := optionLoop_ok_version_args progname opts _ _ hloop
    simp only [Vars.init, Option.orElse_none, Option.or_none] at e1 e2 e3 e4 e5
    rw [main_of_ok env progname opts vars hloop]
    by_cases hmiss : vars.sProtocolDefFile = none ∨ vars.sCPPFile = none ∨ vars.sHFile = none ∨
        vars.sPythonCPPFile = none
    · left
      rw [generate_missing env progname vars hmiss]
      refine ⟨rfl, _, rfl, ?_⟩
      simp [usage, Event.isRegistration, Event.isLoad, Event.isOutputAction]
    · right
      simp only [not_or, ← ne_eq, Option.ne_none_iff_exists'] at hmiss
      obtain ⟨⟨d, hd⟩, ⟨c, hc⟩, ⟨i, hi⟩, ⟨p, hp⟩⟩ := hmiss
      refine ⟨d, c, i, p, vars.iVersion, e1 ▸ hd, e2 ▸ hc, e3 ▸ hi, e4 ▸ hp, e5, e6, ?_⟩
      unfold generate
      simp only [hd, hc, hi, hp]
      cases hL : env.Load d vars.iVersion
      · simp
      · cases hC : env.fopen c
        · simp
        · cases hH : env.fopen i
          · simp
          · cases hP : env.fopen p
            · simp
            · simp [EXIT_SUCCESS]

/-! ## Lemmas on traces -/

theorem driverWrites_append (f : Stream) (a b : List Event) :
    driverWrites f (a ++ b) = driverWrites f a ++ driverWrites f b := by
  induction a with
  | nil => simp [driverWrites]
  | cons e rest ih =>
    rw [List.cons_append]
    cases e with
    | write g w text =>
      cases w with
      | pass q => simp only [driverWrites]; exact ih
      | driver =>
        simp only [driverWrites]
        rw [ih]
        split_ifs <;> simp
    | _ => simp only [driverWrites]; exact ih

/-- The shape of a successful run. -/
theorem main_success (env : Env) (progname : String) (opts : List GetoptResult)
    (h : (main env progname opts).status = EXIT_SUCCESS) :
    ∃ d c i p v, lastArg 'd' opts = some d ∧ lastArg 'c' opts = some c ∧
      lastArg 'i' opts = some i ∧ lastArg 'p' opts = some p ∧
      (main env progname opts).trace = registrations ++
        ([Event.Load d v true, Event.fopen Stream.pCFile c true,
          Event.fopen Stream.pHFile i true, Event.fopen Stream.pPythonCFile p true]
         ++ headerBlock env.oGenerator ++ sourceBlock env.oGenerator i
         ++ pythonBlock env.oGenerator
         ++ [Event.fclose Stream.pHFile, Event.fclose Stream.pCFile,
             Event.fclose Stream.pPythonCFile]) := by
  rcases main_cases env progname opts with ⟨hs, -⟩ | ⟨d, c, i, p, v, hd, hc, hi, hp, -, -, hcase⟩
  · rw [hs] at h; exact absurd h (by decide)
  · rcases hcase with ⟨-, hs, -⟩ | ⟨-, -, hs, -⟩ | ⟨-, -, -, hs, -⟩ | ⟨-, -, -, -, hs, -⟩ |
      ⟨-, -, -, -, -, ht⟩
    · rw [hs] at h; exact absurd h (by decide)
    · rw [hs] at h; exact absurd h (by decide)
    · rw [hs] at h; exact absurd h (by decide)
    · rw [hs] at h; exact absurd h (by decide)
    · exact ⟨d, c, i, p, v, hd, hc, hi, hp, ht⟩

/-- If a list starts with `A` and `x` is not in `A`, every occurrence of `x`
lies after `A`. -/
theorem split_after_prefix {α : Type} (A B pre post : List α) (x : α) (hx : x ∉ A)
    (h : A ++ B = pre ++ x :: post) : ∃ mid, pre = A ++ mid ∧ B = mid ++ x :: post := by
  rcases List.append_eq_append_iff.mp h with ⟨a1, h1, h2⟩ | ⟨c1, h1, h2⟩
  · exact ⟨a1, h1, h2⟩
  · cases c1 with
    | nil =>
      refine ⟨[], ?_, ?_⟩
      · simpa using h1.symm
      · simpa using h2.symm
    | cons y c2 =>
      simp only [List.cons_append, List.cons.injEq] at h2
      exact absurd (by rw [h1, h2.1]; simp) hx

/-- The events after a successful `Load` are neither registrations nor calls
of `Load`. -/
theorem after_Load_events (g : ProtocolCodeGenerator) (c i p : String) (bc bi bp : Bool) :
    (∀ e ∈ [Event.fopen Stream.pCFile c bc, Event.err 1 ("can\x27t create \x27" ++ c ++ "\x27")],
      e.isRegistration = false ∧ e.isLoad = false) ∧
    (∀ e ∈ [Event.fopen Stream.pCFile c bc, Event.fopen Stream.pHFile i bi,
        Event.err 1 ("can\x27t create \x27" ++ i ++ "\x27")],
      e.isRegistration = false ∧ e.isLoad = false) ∧
    (∀ e ∈ [Event.fopen Stream.pCFile c bc, Event.fopen Stream.pHFile i bi,
        Event.fopen Stream.pPythonCFile p bp,
        Event.err 1 ("can\x27t create \x27" ++ p ++ "\x27")],
      e.isRegistration = false ∧ e.isLoad = false) ∧
    (∀ e ∈ [Event.fopen Stream.pCFile c bc, Event.fopen Stream.pHFile i bi,
        Event.fopen Stream.pPythonCFile p bp] ++ headerBlock g ++ sourceBlock g i ++
        pythonBlock g ++ [Event.fclose Stream.pHFile, Event.fclose Stream.pCFile,
          Event.fclose Stream.pPythonCFile],
      e.isRegistration = false ∧ e.isLoad = false) := by
  refine ⟨?_, ?_, ?_, ?_⟩ <;>
    simp [headerBlock, headerPreamble, headerPasses, headerClosing, sourceBlock, sourcePreamble,
      sourcePasses, pythonBlock, write_header, Event.isRegistration, Event.isLoad]

/-- Every run starts with the five registrations; what follows is either free
of `Load` and of output actions, or a failing `Load` and the error message, or
a successful `Load` followed by events that are neither registrations nor
calls of `Load`. -/
theorem main_shape (env : Env) (progname : String) (opts : List GetoptResult) :
    ((main env progname opts).status = 1 ∧
      ∃ events, (main env progname opts).trace = registrations ++ events ∧
        ∀ e ∈ events, e.isRegistration = false ∧ e.isLoad = false ∧ e.isOutputAction = false) ∨
    ∃ d c i p v, lastArg 'd' opts = some d ∧ lastArg 'c' opts = some c ∧
      lastArg 'i' opts = some i ∧ lastArg 'p' opts = some p ∧
      v = ((lastArg 'v' opts).map (fun a => toInt (strtol a.data).1)).getD (-1) ∧
      (∀ r ∈ opts, r.opt = 'v' → (strtol r.optarg.data).2 = []) ∧
      ((env.Load d v = false ∧ (main env progname opts).status = 1 ∧
          (main env progname opts).trace = registrations ++
            [Event.Load d v false, Event.errx 1 "can\x27t load protocol definitions"]) ∨
       (env.Load d v = true ∧ ∃ events,
          (main env progname opts).trace = registrations ++ Event.Load d v true :: events ∧
          ∀ e ∈ events, e.isRegistration = false ∧ e.isLoad = false)) := by
  rcases main_cases env progname opts with hA | ⟨d, c, i, p, v, hd, hc, hi, hp, hv, hargs, hcase⟩
  · exact Or.inl hA
  · refine Or.inr ⟨d, c, i, p, v, hd, hc, hi, hp, hv, hargs, ?_⟩
    have hA := after_Load_events env.oGenerator c i p
    rcases hcase with h1 | ⟨hL, -, -, ht⟩ | ⟨hL, -, -, -, ht⟩ | ⟨hL, -, -, -, -, ht⟩ |
      ⟨hL, -, -, -, -, ht⟩
    · exact Or.inl h1
    · exact Or.inr ⟨hL, _, ht, (hA false false false).1⟩
    · exact Or.inr ⟨hL, _, ht, (hA true false false).2.1⟩
    · exact Or.inr ⟨hL, _, ht, (hA true true false).2.2.1⟩
    · refine Or.inr ⟨hL, _, ?_, (hA true true true).2.2.2⟩
      rw [ht]
      simp

theorem registrations_events (e : Event) (he : e ∈ registrations) :
    e.isRegistration = true ∧ e.isLoad = false ∧ e.isOutputAction = false := by
  simp only [registrations, List.mem_cons, List.mem_singleton, List.not_mem_nil, or_false] at he
  rcases he with rfl | rfl | rfl | rfl | rfl <;> exact ⟨rfl, rfl, rfl⟩

theorem opened_append (a b : List Event) : opened (a ++ b) = opened a ++ opened b := by
  induction a with
  | nil => simp [opened]
  | cons e rest ih =>
    rw [List.cons_append]
    cases e with
    | fopen f path ok =>
      cases ok
      · simp only [opened]; exact ih
      · simp only [opened, ih, List.cons_append]
    | _ => simp only [opened]; exact ih

/-- What a call of `Load` in a run was given. -/
theorem Load_event (env : Env) (progname : String) (opts : List GetoptResult)
    (path : String) (version : Int) (ok : Bool)
    (h : Event.Load path version ok ∈ (main env progname opts).trace) :
    lastArg 'd' opts = some path ∧
    version = ((lastArg 'v' opts).map (fun a => toInt (strtol a.data).1)).getD (-1) ∧
    (∀ r ∈ opts, r.opt = 'v' → (strtol r.optarg.data).2 = []) := by
  rcases main_shape env progname opts with ⟨-, events, ht, hev⟩ |
    ⟨d, c, i, p, v, hd, -, -, -, hv, hargs, ⟨-, -, ht⟩ | ⟨-, events, ht, hev⟩⟩
  · exfalso
    rw [ht] at h
    rcases List.mem_append.mp h with h1 | h1
    · exact absurd (registrations_events _ h1).2.1 (by simp [Event.isLoad])
    · exact absurd (hev _ h1).2.1 (by simp [Event.isLoad])
  · rw [ht] at h
    rcases List.mem_append.mp h with h1 | h1
    · exact absurd (registrations_events _ h1).2.1 (by simp [Event.isLoad])
    · simp only [List.mem_cons, Event.Load.injEq, List.mem_singleton, List.not_mem_nil,
        or_false, reduceCtorEq] at h1
      obtain ⟨rfl, rfl, -⟩ := h1
      exact ⟨hd, hv, hargs⟩
  · rw [ht] at h
    rcases List.mem_append.mp h with h1 | h1
    · exact absurd (registrations_events _ h1).2.1 (by simp [Event.isLoad])
    · rcases List.mem_cons.mp h1 with h2 | h2
      · simp only [Event.Load.injEq] at h2
        obtain ⟨rfl, rfl, -⟩ := h2
        exact ⟨hd, hv, hargs⟩
      · exact absurd (hev _ h2).2 (by simp [Event.isLoad])

/-! ## Lemmas on `strtol` -/

theorem digitsVal_append (ds : List Char) (c : Char) :
    digitsVal (ds ++ [c]) = 10 * digitsVal ds + digitVal c := by
  simp [digitsVal, List.foldl_append]

theorem digitsVal_eq_ofDigits (ds : List Char) :
    digitsVal ds = Nat.ofDigits 10 (ds.reverse.map digitVal) := by
  induction ds using List.reverseRecOn with
  | nil => simp [digitsVal]
  | append_singleton ds c ih =>
    rw [digitsVal_append, ih]
    simp [Nat.ofDigits_cons]
    omega

theorem isspace_of_isdigit (c : Char) (h : isdigit c = true) : isspace c = false := by
  simp only [isdigit, Bool.and_eq_true, decide_eq_true_eq] at h
  simp only [isspace, Bool.or_eq_false_iff, decide_eq_false_iff_not, Bool.and_eq_false_imp,
    decide_eq_true_eq]
  omega

theorem stripSign_of_isdigit (c : Char) (rest : List Char) (h : isdigit c = true) :
    stripSign (c :: rest) = (false, c :: rest) := by
  have h1 : c ≠ '-' := by
    rintro rfl
    exact absurd h (by decide)
  have h2 : c ≠ '+' := by
    rintro rfl
    exact absurd h (by decide)
  unfold stripSign
  split
  · rename_i heq
    simp only [List.cons.injEq] at heq
    exact absurd heq.1 h1
  · rename_i heq
    simp only [List.cons.injEq] at heq
    exact absurd heq.1 h2
  · rfl

/-- What `strtol` returns on a run of digits after an optional minus sign. -/
theorem strtol_decimalLiteral (neg : Bool) (ds : List Char) (hne : ds ≠ [])
    (hd : ∀ c ∈ ds, isdigit c = true) :
    strtol (decimalLiteral neg ds).data =
      (let value : Int := if neg then -(digitsVal ds : Int) else (digitsVal ds : Int)
       if value > LONG_MAX then LONG_MAX else if value < LONG_MIN then LONG_MIN else value,
       []) := by
  have htake : ds.takeWhile isdigit = ds := List.takeWhile_eq_self_iff.mpr hd
  have hdrop : ds.dropWhile isdigit = [] := List.dropWhile_eq_nil_iff.mpr hd
  have hemp : ds.isEmpty = false := by
    cases ds with
    | nil => exact absurd rfl hne
    | cons c rest => rfl
  cases neg with
  | true =>
    have hs : stripSign (List.dropWhile isspace ('-' :: ds)) = (true, ds) := by
      rw [List.dropWhile_cons_of_neg (by decide)]
      rfl
    simp only [decimalLiteral, if_true, List.singleton_append, strtol, hs, htake, hdrop, hemp,
      Bool.false_eq_true, if_false]
  | false =>
    obtain ⟨c, rest, rfl⟩ := List.exists_cons_of_ne_nil hne
    have hc : isdigit c = true := hd c (List.mem_cons_self _ _)
    have hs : stripSign (List.dropWhile isspace (c :: rest)) = (false, c :: rest) := by
      rw [List.dropWhile_cons_of_neg (by simp [isspace_of_isdigit c hc])]
      exact stripSign_of_isdigit c rest hc
    simp only [decimalLiteral, Bool.false_eq_true, if_false, List.nil_append, strtol, hs, htake,
      hdrop, hemp]

theorem toInt_of_int_range (v : Int) (h1 : INT_MIN ≤ v) (h2 : v ≤ INT_MAX) : toInt v = v := by
  simp only [INT_MIN, INT_MAX] at h1 h2
  simp only [toInt]
  norm_num at h1 h2 ⊢
  omega

/-- On a decimal literal whose value fits an `int`, `strtol` reads the literal
to its end and the conversion to `int` gives its value. -/
theorem strtol_literal_in_range (neg : Bool) (ds : List Char) (hne : ds ≠ [])
    (hd : ∀ c ∈ ds, isdigit c = true)
    (h1 : INT_MIN ≤ literalValue neg ds) (h2 : literalValue neg ds ≤ INT_MAX) :
    toInt (strtol (decimalLiteral neg ds).data).1 = literalValue neg ds ∧
    (strtol (decimalLiteral neg ds).data).2 = [] := by
  rw [strtol_decimalLiteral neg ds hne hd]
  have hv : (if neg then -(digitsVal ds : Int) else (digitsVal ds : Int)) = literalValue neg ds := by
    simp only [literalValue, digitsVal_eq_ofDigits]
  refine ⟨?_, rfl⟩
  simp only [hv]
  have h3 : ¬ literalValue neg ds > LONG_MAX := by
    simp only [INT_MAX, LONG_MAX] at h2 ⊢
    norm_num at h2 ⊢
    omega
  have h4 : ¬ literalValue neg ds < LONG_MIN := by
    simp only [INT_MIN, LONG_MIN] at h1 ⊢
    norm_num at h1 ⊢
    omega
  rw [if_neg h3, if_neg h4]
  exact toInt_of_int_range _ h1 h2

/-! ## Lemmas on `lastArg` -/

theorem lastArg_eq_none_iff (c : Char) (opts : List GetoptResult) :
    lastArg c opts = none ↔ ∀ r ∈ opts, r.opt ≠ c := by
  induction opts with
  | nil => simp [lastArg]
  | cons r rest ih =>
    rw [lastArg_cons]
    cases hl : lastArg c rest with
    | none =>
      have hrest := ih.mp hl
      by_cases hc : r.opt = c
      · simp [hc]
      · simp only [hc, if_false, List.mem_cons, forall_eq_or_imp]
        exact ⟨fun _ => ⟨hc, hrest⟩, fun _ => rfl⟩
    | some a =>
      have hrest : ¬ ∀ r ∈ rest, r.opt ≠ c := fun h => by
        rw [ih.mpr h] at hl
        exact absurd hl (by simp)
      simp only [List.mem_cons, forall_eq_or_imp]
      constructor
      · intro h
        simp at h
      · intro h
        exact absurd h.2 hrest

/-- The value of `lastArg` is the argument of an occurrence of the option
after which the option does not occur again. -/
theorem lastArg_eq_some_iff (c : Char) (opts : List GetoptResult) (a : String) :
    lastArg c opts = some a ↔
      ∃ pre post, opts = pre ++ { opt := c, optarg := a } :: post ∧ ∀ r ∈ post, r.opt ≠ c := by
  induction opts with
  | nil => simp [lastArg]
  | cons r rest ih =>
    rw [lastArg_cons]
    constructor
    · intro h
      cases hl : lastArg c rest with
      | some b =>
        rw [hl] at h
        simp only [Option.some_orElse, Option.some.injEq] at h
        subst h
        obtain ⟨pre, post, hsplit, hpost⟩ := ih.mp hl
        exact ⟨r :: pre, post, by rw [hsplit]; rfl, hpost⟩
      | none =>
        rw [hl] at h
        by_cases hc : r.opt = c
        · simp only [hc, if_true] at h
          have ha : r.optarg = a := by simpa using h
          refine ⟨[], rest, ?_, (lastArg_eq_none_iff c rest).mp hl⟩
          obtain ⟨o, x⟩ := r
          simp only at hc ha
          subst hc ha
          rfl
        · simp [hc] at h
    · rintro ⟨pre, post, hsplit, hpost⟩
      cases pre with
      | nil =>
        simp only [List.nil_append, List.cons.injEq] at hsplit
        obtain ⟨rfl, rfl⟩ := hsplit
        rw [(lastArg_eq_none_iff c rest).mpr hpost]
        simp
      | cons q pre1 =>
        simp only [List.cons_append, List.cons.injEq] at hsplit
        obtain ⟨rfl, hrest⟩ := hsplit
        rw [ih.mpr ⟨pre1, post, hrest, hpost⟩]
        simp

/-- The lines the driver itself writes to the header file in a successful
run. -/
theorem success_driverWrites_pHFile (env : Env) (progname : String) (opts : List GetoptResult)
    (h : (main env progname opts).status = EXIT_SUCCESS) :
    driverWrites Stream.pHFile (main env progname opts).trace =
      driverWrites Stream.pHFile headerPreamble ++ driverWrites Stream.pHFile headerClosing := by
  obtain ⟨d, c, i, p, v, -, -, -, -, ht⟩ := main_success env progname opts h
  rw [ht]
  simp only [driverWrites_append, headerBlock, sourceBlock, pythonBlock]
  have h1 : driverWrites Stream.pHFile registrations = [] := rfl
  have h2 : driverWrites Stream.pHFile (headerPasses env.oGenerator) = [] := rfl
  have h3 : driverWrites Stream.pHFile (sourcePreamble i) = [] := rfl
  have h4 : driverWrites Stream.pHFile (sourcePasses env.oGenerator) = [] := rfl
  rw [h1, h2, h3, h4]
  simp [driverWrites]

set_option maxRecDepth 100000 in
theorem typedefs_of_header :
    (driverWrites Stream.pHFile headerPreamble ++
      driverWrites Stream.pHFile headerClosing).filterMap parseTypedef =
      [ ("uint8_t", "u8"), ("uint16_t", "u16"), ("uint32_t", "u32"), ("uint32_t", "unixtime"),
        ("int8_t", "s8"), ("int16_t", "s16"), ("int32_t", "s32"), ("uint32_t", "ulength") ] := by
  decide

/-- The option loop runs to its end when every result of `getopt` is one of
the five options with an argument and every -v argument is read by `strtol`
to its end. -/
theorem optionLoop_total (progname : String) (opts : List GetoptResult)
    (h : ∀ r ∈ opts, r.opt = 'd' ∨ r.opt = 'c' ∨ r.opt = 'i' ∨ r.opt = 'p' ∨
      (r.opt = 'v' ∧ (strtol r.optarg.data).2 = [])) :
    ∀ v, ∃ v1, optionLoop progname opts v = Except.ok v1 := by
  induction opts with
  | nil => intro v; exact ⟨v, rfl⟩
  | cons r rest ih =>
    intro v
    have hrest := ih (fun x hx => h x (List.mem_cons_of_mem _ hx))
    have hr := h r (List.mem_cons_self _ _)
    unfold optionLoop
    by_cases hd : r.opt = 'd'
    · rw [if_pos hd]; exact hrest _
    rw [if_neg hd]
    by_cases hc : r.opt = 'c'
    · rw [if_pos hc]; exact hrest _
    rw [if_neg hc]
    by_cases hi : r.opt = 'i'
    · rw [if_pos hi]; exact hrest _
    rw [if_neg hi]
    by_cases hp : r.opt = 'p'
    · rw [if_pos hp]; exact hrest _
    rw [if_neg hp]
    rcases hr with h1 | h1 | h1 | h1 | ⟨hv, hptr⟩
    · exact absurd h1 hd
    · exact absurd h1 hc
    · exact absurd h1 hi
    · exact absurd h1 hp
    · rw [if_pos hv]
      simp only [hptr, ne_eq, not_true_eq_false, if_false]
      exact hrest _

/-- The option loop runs to its end only when every result of `getopt` is one
of the five options with an argument. -/
theorem optionLoop_ok_options (progname : String) (opts : List GetoptResult) :
    ∀ v v1 : Vars, optionLoop progname opts v = Except.ok v1 →
      ∀ r ∈ opts, r.opt = 'd' ∨ r.opt = 'c' ∨ r.opt = 'i' ∨ r.opt = 'p' ∨
        (r.opt = 'v' ∧ (strtol r.optarg.data).2 = []) := by
  induction opts with
  | nil => intro v v1 _ r hr; simp at hr
  | cons r rest ih =>
    intro v v1 h r1 hr1
    obtain ⟨v2, h2, -, -, -, -, -, e6⟩ := optionLoop_cons_ok progname r rest v v1 h
    rcases List.mem_cons.mp hr1 with rfl | hmem
    · by_cases hd : r1.opt = 'd'
      · exact Or.inl hd
      by_cases hc : r1.opt = 'c'
      · exact Or.inr (Or.inl hc)
      by_cases hi : r1.opt = 'i'
      · exact Or.inr (Or.inr (Or.inl hi))
      by_cases hp : r1.opt = 'p'
      · exact Or.inr (Or.inr (Or.inr (Or.inl hp)))
      by_cases hv : r1.opt = 'v'
      · exact Or.inr (Or.inr (Or.inr (Or.inr ⟨hv, e6 hv⟩)))
      · exfalso
        unfold optionLoop at h
        simp [hd, hc, hi, hp, hv] at h
    · exact ih v2 v1 h2 r1 hmem

/-! ## The claims -/

/-- C4: in every run of main, an action on an output file (fopen, a write by
the driver or by a pass, fclose) happens only if the four path options -d,
-c, -i and -p were given and a call of Load on the -d path has returned
success earlier in the run; and a run in which Load reports failure ends with
a non-zero status without any action on an output file. -/
theorem no_output_before_Load_succeeds (env : Env) (progname : String)
    (opts : List GetoptResult) :
    (∀ pre e post, (main env progname opts).trace = pre ++ e :: post →
        e.isOutputAction = true →
        ∃ d c i p v, lastArg 'd' opts = some d ∧ lastArg 'c' opts = some c ∧
          lastArg 'i' opts = some i ∧ lastArg 'p' opts = some p ∧
          env.Load d v = true ∧ Event.Load d v true ∈ pre) ∧
    (∀ path version, Event.Load path version false ∈ (main env progname opts).trace →
        (main env progname opts).status ≠ EXIT_SUCCESS ∧
        ∀ e ∈ (main env progname opts).trace, e.isOutputAction = false) := by
  rcases main_shape env progname opts with ⟨hs, events, ht, hev⟩ |
    ⟨d, c, i, p, v, hd, hc, hi, hp, -, -, ⟨hL, hs, ht⟩ | ⟨hL, events, ht, hev⟩⟩
  · have hnone : ∀ e ∈ (main env progname opts).trace,
        e.isLoad = false ∧ e.isOutputAction = false := by
      intro e he
      rw [ht] at he
      rcases List.mem_append.mp he with h1 | h1
      · exact (registrations_events e h1).2
      · exact (hev e h1).2
    constructor
    · intro pre e post hsplit hout
      have := (hnone e (by rw [hsplit]; simp)).2
      rw [hout] at this
      exact absurd this (by decide)
    · intro path version hmem
      have := (hnone _ hmem).1
      exact absurd this (by simp [Event.isLoad])
  · have hnone : ∀ e ∈ (main env progname opts).trace, e.isOutputAction = false := by
      intro e he
      rw [ht] at he
      rcases List.mem_append.mp he with h1 | h1
      · exact (registrations_events e h1).2.2
      · simp only [List.mem_cons, List.mem_singleton, List.not_mem_nil, or_false] at h1
        rcases h1 with rfl | rfl <;> rfl
    constructor
    · intro pre e post hsplit hout
      have := hnone e (by rw [hsplit]; simp)
      rw [hout] at this
      exact absurd this (by decide)
    · intro path version _
      refine ⟨?_, hnone⟩
      rw [hs]
      decide
  · constructor
    · intro pre e post hsplit hout
      refine ⟨d, c, i, p, v, hd, hc, hi, hp, hL, ?_⟩
      have hnot : e ∉ registrations ++ [Event.Load d v true] := by
        intro hmem
        rcases List.mem_append.mp hmem with h1 | h1
        · have := (registrations_events e h1).2.2
          rw [hout] at this
          exact absurd this (by decide)
        · rw [List.mem_singleton] at h1
          subst h1
          exact absurd hout (by simp [Event.isOutputAction])
      have ht2 : (registrations ++ [Event.Load d v true]) ++ events = pre ++ e :: post := by
        rw [← hsplit, ht]
        simp
      obtain ⟨mid, hmid, -⟩ := split_after_prefix _ events pre post e hnot ht2
      rw [hmid]
      simp
    · intro path version hmem
      exfalso
      rw [ht] at hmem
      rcases List.mem_append.mp hmem with h1 | h1
      · exact absurd (registrations_events _ h1).2.1 (by simp [Event.isLoad])
      · rcases List.mem_cons.mp h1 with h2 | h2
        · simp at h2
        · exact absurd (hev _ h2).2 (by simp [Event.isLoad])

/-- C4 at `mkdef -d protocol.xml -c out.cc -i out.h -p py.cc` when Load
fails: Load is called, the status is 1 and no output file is touched. -/
theorem no_output_before_Load_succeeds_witness :
    Event.Load "protocol.xml" (-1) false ∈ (main loadFailsEnv "mkdef" fourPaths).trace ∧
    (main loadFailsEnv "mkdef" fourPaths).status ≠ EXIT_SUCCESS ∧
    ∀ e ∈ (main loadFailsEnv "mkdef" fourPaths).trace, e.isOutputAction = false :=
  ⟨by decide,
   (no_output_before_Load_succeeds loadFailsEnv "mkdef" fourPaths).2 "protocol.xml" (-1)
     (by decide)⟩

/-- C6: every run of main starts with the registration of the transformation
"rompack" and of the annotations "sys_name", "stat_name", "objectid" and
"charid"; nothing after them is a registration, so whenever Load is called
the five registrations are before it and none is after it; and the names
registered in each registry are pairwise distinct. -/
theorem registries_populated_before_Load (env : Env) (progname : String)
    (opts : List GetoptResult) :
    (∃ events, (main env progname opts).trace =
        [ Event.RegisterTransformation "rompack", Event.RegisterAnnotation "sys_name",
          Event.RegisterAnnotation "stat_name", Event.RegisterAnnotation "objectid",
          Event.RegisterAnnotation "charid" ] ++ events ∧
        ∀ e ∈ events, e.isRegistration = false) ∧
    (∀ pre post path version ok,
        (main env progname opts).trace = pre ++ Event.Load path version ok :: post →
        Event.RegisterTransformation "rompack" ∈ pre ∧
        Event.RegisterAnnotation "sys_name" ∈ pre ∧
        Event.RegisterAnnotation "stat_name" ∈ pre ∧
        Event.RegisterAnnotation "objectid" ∈ pre ∧
        Event.RegisterAnnotation "charid" ∈ pre ∧
        ∀ e ∈ post, e.isRegistration = false) ∧
    registeredTransformations (main env progname opts).trace = ["rompack"] ∧
    registeredAnnotations (main env progname opts).trace =
      ["sys_name", "stat_name", "objectid", "charid"] ∧
    (registeredTransformations (main env progname opts).trace).Nodup ∧
    (registeredAnnotations (main env progname opts).trace).Nodup := by
  have hsplit : ∃ events, (main env progname opts).trace = registrations ++ events ∧
      ∀ e ∈ events, e.isRegistration = false := by
    rcases main_shape env progname opts with ⟨-, events, ht, hev⟩ |
      ⟨d, c, i, p, v, -, -, -, -, -, -, ⟨-, -, ht⟩ | ⟨-, events, ht, hev⟩⟩
    · exact ⟨events, ht, fun e he => (hev e he).1⟩
    · exact ⟨_, ht, by simp [Event.isRegistration]⟩
    · refine ⟨_, ht, ?_⟩
      intro e he
      rcases List.mem_cons.mp he with rfl | he1
      · rfl
      · exact (hev e he1).1
  obtain ⟨events, ht, hev⟩ := hsplit
  have hT : ∀ l : List Event, (∀ e ∈ l, e.isRegistration = false) →
      registeredTransformations l = [] := by
    intro l
    induction l with
    | nil => intro _; rfl
    | cons e rest ih =>
      intro h
      have h1 := h e (List.mem_cons_self _ _)
      have h2 := ih (fun x hx => h x (List.mem_cons_of_mem _ hx))
      cases e <;> simp_all [registeredTransformations, Event.isRegistration]
  have hA : ∀ l : List Event, (∀ e ∈ l, e.isRegistration = false) →
      registeredAnnotations l = [] := by
    intro l
    induction l with
    | nil => intro _; rfl
    | cons e rest ih =>
      intro h
      have h1 := h e (List.mem_cons_self _ _)
      have h2 := ih (fun x hx => h x (List.mem_cons_of_mem _ hx))
      cases e <;> simp_all [registeredAnnotations, Event.isRegistration]
  have hRT : registeredTransformations (main env progname opts).trace = ["rompack"] := by
    rw [ht]
    simp [registrations, registeredTransformations, hT events hev]
  have hRA : registeredAnnotations (main env progname opts).trace =
      ["sys_name", "stat_name", "objectid", "charid"] := by
    rw [ht]
    simp [registrations, registeredAnnotations, hA events hev]
  refine ⟨⟨events, ht, hev⟩, ?_, hRT, hRA, ?_, ?_⟩
  · intro pre post path version ok hpre
    rw [ht] at hpre
    obtain ⟨mid, hmid, hrest⟩ := split_after_prefix registrations events pre post _
      (by simp [registrations]) hpre
    subst hmid
    refine ⟨by simp [registrations], by simp [registrations], by simp [registrations],
      by simp [registrations], by simp [registrations], ?_⟩
    intro e he
    exact hev e (by rw [hrest]; simp [he])
  · rw [hRT]; decide
  · rw [hRA]; decide

/-- C6 at `mkdef -d protocol.xml -c out.cc -i out.h -p py.cc` with every
collaborator succeeding: Load is called, after the five registrations. -/
theorem registries_populated_before_Load_witness :
    Event.Load "protocol.xml" (-1) true ∈ (main goodEnv "mkdef" fourPaths).trace ∧
    (main goodEnv "mkdef" fourPaths).trace.take 6 =
      [ Event.RegisterTransformation "rompack", Event.RegisterAnnotation "sys_name",
        Event.RegisterAnnotation "stat_name", Event.RegisterAnnotation "objectid",
        Event.RegisterAnnotation "charid", Event.Load "protocol.xml" (-1) true ] ∧
    registeredAnnotations (main goodEnv "mkdef" fourPaths).trace =
      ["sys_name", "stat_name", "objectid", "charid"] :=
  ⟨by decide, by decide,
   (registries_populated_before_Load goodEnv "mkdef" fourPaths).2.2.2.1⟩

/-- C7: whenever a run of main calls Load, the path Load receives is the
argument of the last -d option; if no -v option was given the version is -1;
and if the last -v option has as argument a decimal literal (an optional
minus sign and at least one digit) whose value N fits an int, the version is
N. -/
theorem Load_receives_version_and_path (env : Env) (progname : String)
    (opts : List GetoptResult) (path : String) (version : Int) (ok : Bool)
    (h : Event.Load path version ok ∈ (main env progname opts).trace) :
    (∃ pre post, opts = pre ++ { opt := 'd', optarg := path } :: post ∧
        ∀ r ∈ post, r.opt ≠ 'd') ∧
    ((∀ r ∈ opts, r.opt ≠ 'v') → version = -1) ∧
    (∀ pre post neg ds,
        opts = pre ++ { opt := 'v', optarg := decimalLiteral neg ds } :: post →
        (∀ r ∈ post, r.opt ≠ 'v') →
        ds ≠ [] → (∀ c ∈ ds, isdigit c = true) →
        INT_MIN ≤ literalValue neg ds → literalValue neg ds ≤ INT_MAX →
        version = literalValue neg ds) := by
  obtain ⟨hd, hv, -⟩ := Load_event env progname opts path version ok h
  refine ⟨(lastArg_eq_some_iff 'd' opts path).mp hd, ?_, ?_⟩
  · intro hno
    rw [hv, (lastArg_eq_none_iff 'v' opts).mpr hno]
    rfl
  · intro pre post neg ds hsplit hpost hne hdig h1 h2
    have hlast : lastArg 'v' opts = some (decimalLiteral neg ds) :=
      (lastArg_eq_some_iff 'v' opts _).mpr ⟨pre, post, hsplit, hpost⟩
    rw [hv, hlast]
    exact (strtol_literal_in_range neg ds hne hdig h1 h2).1

/-- C7 at `mkdef -d protocol.xml -v 7 -c out.cc -i out.h -p py.cc -v -12`:
Load is called with version -12, and at
`mkdef -d protocol.xml -c out.cc -i out.h -p py.cc` with version -1. -/
theorem Load_receives_version_and_path_witness :
    Event.Load "protocol.xml" (-12) true ∈ (main goodEnv "mkdef" twoVersions).trace ∧
    (∀ version ok, Event.Load "protocol.xml" version ok ∈ (main goodEnv "mkdef" twoVersions).trace →
      version = -12) ∧
    Event.Load "protocol.xml" (-1) true ∈ (main goodEnv "mkdef" fourPaths).trace ∧
    (∀ version ok, Event.Load "protocol.xml" version ok ∈ (main goodEnv "mkdef" fourPaths).trace →
      version = -1) :=
  ⟨by decide,
   fun version ok h =>
     (Load_receives_version_and_path goodEnv "mkdef" twoVersions "protocol.xml" version ok h).2.2
       [ { opt := 'd', optarg := "protocol.xml" }, { opt := 'v', optarg := "7" },
         { opt := 'c', optarg := "out.cc" }, { opt := 'i', optarg := "out.h" },
         { opt := 'p', optarg := "py.cc" } ] [] true ['1', '2']
       (by decide) (by decide) (by decide) (by decide) (by decide) (by decide),
   by decide,
   fun version ok h =>
     (Load_receives_version_and_path goodEnv "mkdef" fourPaths "protocol.xml" version ok h).2.1
       (by decide)⟩

/-- C8: in every successful run of main the type aliases the driver writes to
the declarations artifact are u8, u16, u32 for uint8_t, uint16_t, uint32_t,
unixtime for uint32_t, s8, s16, s32 for int8_t, int16_t, int32_t and ulength
for uint32_t; every aliased type is an exact-width type of 1, 2 or 4 bytes
with the signedness and width the alias name states, and none is int, long,
size_t or time_t. -/
theorem type_aliases_fixed_width (env : Env) (progname : String) (opts : List GetoptResult)
    (h : (main env progname opts).status = EXIT_SUCCESS) :
    typedefs (main env progname opts).trace =
      [ ("uint8_t", "u8"), ("uint16_t", "u16"), ("uint32_t", "u32"), ("uint32_t", "unixtime"),
        ("int8_t", "s8"), ("int16_t", "s16"), ("int32_t", "s32"), ("uint32_t", "ulength") ] ∧
    (∀ ta ∈ typedefs (main env progname opts).trace,
      ∃ info, exactWidthType ta.1 = some info ∧ info.2 ∈ [1, 2, 4] ∧
        (statedByName ta.2 = none ∨ statedByName ta.2 = some info)) ∧
    (∀ ta ∈ typedefs (main env progname opts).trace, ta.1 ∉ hostNativeTypes) := by
  have ht : typedefs (main env progname opts).trace =
      [ ("uint8_t", "u8"), ("uint16_t", "u16"), ("uint32_t", "u32"), ("uint32_t", "unixtime"),
        ("int8_t", "s8"), ("int16_t", "s16"), ("int32_t", "s32"), ("uint32_t", "ulength") ] := by
    unfold typedefs
    rw [success_driverWrites_pHFile env progname opts h]
    exact typedefs_of_header
  rw [ht]
  refine ⟨rfl, ?_, by decide⟩
  intro ta hta
  simp only [List.mem_cons, List.mem_singleton, List.not_mem_nil, or_false] at hta
  rcases hta with rfl | rfl | rfl | rfl | rfl | rfl | rfl | rfl
  · exact ⟨(false, 1), by decide, by decide, by decide⟩
  · exact ⟨(false, 2), by decide, by decide, by decide⟩
  · exact ⟨(false, 4), by decide, by decide, by decide⟩
  · exact ⟨(false, 4), by decide, by decide, by decide⟩
  · exact ⟨(true, 1), by decide, by decide, by decide⟩
  · exact ⟨(true, 2), by decide, by decide, by decide⟩
  · exact ⟨(true, 4), by decide, by decide, by decide⟩
  · exact ⟨(false, 4), by decide, by decide, by decide⟩

/-- C8 at `mkdef -d protocol.xml -c out.cc -i out.h -p py.cc` with every
collaborator succeeding. -/
theorem type_aliases_fixed_width_witness :
    (main goodEnv "mkdef" fourPaths).status = EXIT_SUCCESS ∧
    typedefs (main goodEnv "mkdef" fourPaths).trace =
      [ ("uint8_t", "u8"), ("uint16_t", "u16"), ("uint32_t", "u32"), ("uint32_t", "unixtime"),
        ("int8_t", "s8"), ("int16_t", "s16"), ("int32_t", "s32"), ("uint32_t", "ulength") ] :=
  ⟨by decide, (type_aliases_fixed_width goodEnv "mkdef" fourPaths (by decide)).1⟩

/-- C10 fails on the code: for `-v ""` strtol converts nothing, returns 0 and
leaves the end pointer on the terminating NUL, so the check passes and Load
is called with version 0; for `-v 4294967295` the value fits a long, the
conversion to int gives -1, and Load is called with the "latest" sentinel.
Both runs succeed. -/
theorem version_argument_not_validated :
    strtol "".data = (0, []) ∧
    Event.Load "protocol.xml" 0 true ∈ (main goodEnv "mkdef" emptyVersion).trace ∧
    (main goodEnv "mkdef" emptyVersion).status = EXIT_SUCCESS ∧
    strtol "4294967295".data = (4294967295, []) ∧
    Event.Load "protocol.xml" (-1) true ∈ (main goodEnv "mkdef" hugeVersion).trace ∧
    (main goodEnv "mkdef" hugeVersion).status = EXIT_SUCCESS := by
  decide

/-! ## Further properties of the driver -/

/-- A run in which strtol does not read some -v argument to its end (the
argument has trailing characters) never calls Load and ends with status 1. -/
theorem unparsed_version_never_reaches_Load (env : Env) (progname : String)
    (opts : List GetoptResult) (r : GetoptResult) (hr : r ∈ opts) (hv : r.opt = 'v')
    (hptr : (strtol r.optarg.data).2 ≠ []) :
    (∀ path version ok, Event.Load path version ok ∉ (main env progname opts).trace) ∧
    (main env progname opts).status = 1 := by
  constructor
  · intro path version ok hmem
    exact hptr ((Load_event env progname opts path version ok hmem).2.2 r hr hv)
  · rcases main_shape env progname opts with ⟨hs, -⟩ | ⟨d, c, i, p, v, -, -, -, -, -, hargs, -⟩
    · exact hs
    · exact absurd (hargs r hr hv) hptr

/-- At `mkdef -v 12abc -d protocol.xml -c out.cc -i out.h -p py.cc` the run
ends with status 1, reports the version as unparsable and never calls Load. -/
theorem unparsed_version_never_reaches_Load_witness :
    (main goodEnv "mkdef" trailingVersion).trace =
      registrations ++ [Event.errx 1 "version \x2712abc\x27 cannot be parsed"] ∧
    (∀ path version ok,
      Event.Load path version ok ∉ (main goodEnv "mkdef" trailingVersion).trace) ∧
    (main goodEnv "mkdef" trailingVersion).status = 1 :=
  ⟨by decide,
   unparsed_version_never_reaches_Load goodEnv "mkdef" trailingVersion
     { opt := 'v', optarg := "12abc" } (by decide) rfl (by decide)⟩

/-- A run of main succeeds exactly when every result of getopt is one of
-d, -c, -i, -p, -v with an argument, every -v argument is read by strtol to
its end, the four path options are given, Load succeeds on the last -d path
and the version of the last -v (or -1), and the three output files can be
opened. -/
theorem run_succeeds_iff (env : Env) (progname : String) (opts : List GetoptResult) :
    (main env progname opts).status = EXIT_SUCCESS ↔
      (∀ r ∈ opts, r.opt = 'd' ∨ r.opt = 'c' ∨ r.opt = 'i' ∨ r.opt = 'p' ∨
        (r.opt = 'v' ∧ (strtol r.optarg.data).2 = [])) ∧
      ∃ d c i p, lastArg 'd' opts = some d ∧ lastArg 'c' opts = some c ∧
        lastArg 'i' opts = some i ∧ lastArg 'p' opts = some p ∧
        env.Load d (((lastArg 'v' opts).map (fun a => toInt (strtol a.data).1)).getD (-1)) = true ∧
        env.fopen c = true ∧ env.fopen i = true ∧ env.fopen p = true := by
  constructor
  · intro h
    cases hloop : optionLoop progname opts Vars.init with
    | error x =>
      obtain ⟨events, status⟩ := x
      rw [main_of_error env progname opts events status hloop] at h
      have := (optionLoop_error progname opts _ _ _ hloop).1
      simp only at h
      rw [this] at h
      exact absurd h (by decide)
    | ok vars =>
      refine ⟨optionLoop_ok_options progname opts _ _ hloop, ?_⟩
      rcases main_cases env progname opts with ⟨hs, -⟩ |
        ⟨d, c, i, p, v, hd, hc, hi, hp, hv, -, hcase⟩
      · rw [hs] at h; exact absurd h (by decide)
      · subst hv
        rcases hcase with ⟨-, hs, -⟩ | ⟨-, -, hs, -⟩ | ⟨-, -, -, hs, -⟩ | ⟨-, -, -, -, hs, -⟩ |
          ⟨hL, hC, hH, hP, -, -⟩
        · rw [hs] at h; exact absurd h (by decide)
        · rw [hs] at h; exact absurd h (by decide)
        · rw [hs] at h; exact absurd h (by decide)
        · rw [hs] at h; exact absurd h (by decide)
        · exact ⟨d, c, i, p, hd, hc, hi, hp, hL, hC, hH, hP⟩
  · rintro ⟨hopts, d, c, i, p, hd, hc, hi, hp, hL, hC, hH, hP⟩
    rcases main_cases env progname opts with ⟨-, events, ht, hev⟩ |
      ⟨d1, c1, i1, p1, v, hd1, hc1, hi1, hp1, hv, -, hcase⟩
    · exfalso
      obtain ⟨v1, hloop⟩ := optionLoop_total progname opts hopts Vars.init
      obtain ⟨e1, e2, e3, e4, -⟩ := optionLoop_ok progname opts _ _ hloop
      simp only [Vars.init, Option.orElse_none, Option.or_none] at e1 e2 e3 e4
      have hmain := main_of_ok env progname opts v1 hloop
      have hgen : ∃ ok rest,
          (generate env progname v1).trace = Event.Load d v1.iVersion ok :: rest := by
        unfold generate
        simp only [e1, e2, e3, e4, hd, hc, hi, hp]
        split_ifs <;> exact ⟨_, _, rfl⟩
      obtain ⟨ok, rest, hgen⟩ := hgen
      have hmem2 : Event.Load d v1.iVersion ok ∈ (main env progname opts).trace := by
        rw [hmain, hgen]
        simp
      rw [ht] at hmem2
      rcases List.mem_append.mp hmem2 with h1 | h1
      · exact absurd (registrations_events _ h1).2.1 (by simp [Event.isLoad])
      · exact absurd (hev _ h1).2.1 (by simp [Event.isLoad])
    · rw [hd] at hd1
      rw [hc] at hc1
      rw [hi] at hi1
      rw [hp] at hp1
      simp only [Option.some.injEq] at hd1 hc1 hi1 hp1
      subst hd1 hc1 hi1 hp1 hv
      rcases hcase with ⟨h1, -⟩ | ⟨-, h1, -⟩ | ⟨-, -, h1, -⟩ | ⟨-, -, -, h1, -⟩ |
        ⟨-, -, -, -, hs, -⟩
      · rw [hL] at h1; exact absurd h1 (by decide)
      · rw [hC] at h1; exact absurd h1 (by decide)
      · rw [hH] at h1; exact absurd h1 (by decide)
      · rw [hP] at h1; exact absurd h1 (by decide)
      · exact hs

end Mkdef
